import Mathlib

/-!
Verification of the dtocean-core data-flow and execution engine.

The repository snapshot available here contains the project's documentation,
its example notebooks (callers of the public API) and configuration, but not
the Python implementation modules themselves (core.py, menu.py, pipeline.py,
the aneris Connector).  Every definition below is therefore a model of the
engine reconstructed from the specification's own words, as marked by the
`Modelled from the spec:` doc comments, with the notebooks used as evidence
of the public call sequences.

The development models: the typed variable catalogue, structured values with
serialization, the versioned data-state / state-history mechanism with
checkpoint and rewind, the connector (status / execute), and the pipeline
menus (project gates, module activation, execute_current).
-/

namespace DTOcean

/-! ## Association lists keyed by strings -/

/-- Lookup of the first binding of key `k` in an association list. -/
def alookup {α : Type} (m : List (String × α)) (k : String) : Option α :=
  match m with
  | [] => none
  | (k', v) :: rest => if k' = k then some v else alookup rest k

/-- Remove every binding of key `k`. -/
def aerase {α : Type} (m : List (String × α)) (k : String) : List (String × α) :=
  match m with
  | [] => []
  | (k', v) :: rest => if k' = k then aerase rest k else (k', v) :: aerase rest k

/-- Install the binding `k ↦ v`, overwriting any prior binding of `k`. -/
def aset {α : Type} (m : List (String × α)) (k : String) (v : α) : List (String × α) :=
  (k, v) :: aerase m k

/-- Install a list of bindings left to right (later entries win). -/
def setAll {α : Type} (m : List (String × α)) (es : List (String × α)) :
    List (String × α) :=
  es.foldl (fun acc e => aset acc e.1 e.2) m

/-- The value of the last entry for key `k` in an event list, if any. -/
def findLast {α : Type} (es : List (String × α)) (k : String) : Option α :=
  match es with
  | [] => none
  | (k', v) :: rest =>
    match findLast rest k with
    | some w => some w
    | none => if k' = k then some v else none

/-! ## Structured Values -/

/-- Scalar payloads carried by the Scalar variant and inside containers. -/
inductive Scalar where
  | str (s : String)
  | int (i : Int)
  | boolean (b : Bool)
  deriving DecidableEq

mutual

/-- Modelled from the spec: the Structured Value variants of §4.2 — Scalar,
Series (ordered sequence of (key, value)), Table (named columns, ordered
rows), TimeSeries (ordered (timestamp, value)), Geometry (point/polygon
coordinates), Matrix (2-D numeric grid with row/column labels) and Mapping
(arbitrary nested key → value).  The Python implementation of these duck-typed
data classes is not present in the snapshot. -/
inductive Value where
  | scalar (s : Scalar)
  | series (xs : List (String × Scalar))
  | table (cols : List String) (rows : List (List Scalar))
  | timeSeries (xs : List (Nat × Scalar))
  | geometry (pts : List (Int × Int))
  | matrix (rlabs clabs : List String) (grid : List (List Int))
  | mapping (m : VMap)
  deriving DecidableEq

/-- Nested key → value entries of the Mapping variant. -/
inductive VMap where
  | nil
  | cons (k : String) (v : Value) (rest : VMap)
  deriving DecidableEq

end

/-- Equality contract of Structured Values (`equals(other)` of §4.2). -/
def Value.equals (a b : Value) : Bool := decide (a = b)

/-- Structural type tags recorded in the Variable Catalogue. -/
inductive VType where
  | tscalar
  | tseries
  | ttable
  | ttimeSeries
  | tgeometry
  | tmatrix
  | tmapping
  deriving DecidableEq

/-- The structural type tag of a Structured Value. -/
def Value.typeOf : Value → VType
  | .scalar _ => .tscalar
  | .series _ => .tseries
  | .table _ _ => .ttable
  | .timeSeries _ => .ttimeSeries
  | .geometry _ => .tgeometry
  | .matrix _ _ _ => .tmatrix
  | .mapping _ => .tmapping

/-! ## Variable Catalogue -/

/-- Modelled from the spec: a catalogue entry (§3) — id, structural type tag,
title, unit, category and allowed-value constraints.  The DDS catalogue
loader is not present in the snapshot. -/
structure VarDef where
  id : String
  vtype : VType
  title : String := ""
  units : String := ""
  category : String := ""
  allowed : Option (List Scalar) := none
  deriving DecidableEq

/-- The Variable Catalogue: a static registry of variable definitions. -/
def Catalogue : Type := List VarDef

deriving instance DecidableEq for Except

/-- Errors of the taxonomy of §7. -/
inductive CoreErr where
  | validationError (id : String)
  | unknownVariable (id : String)
  | unknownModule (name : String)
  | unknownLevel (level : String)
  | duplicateDefinition (id : String)
  | notExecutable (ids : List String)
  | executionError (id : String) (cause : String)
  | outputValidationError (id : String)
  | pipelineLocked
  deriving DecidableEq

/-- Modelled from the spec: `lookup(id)` of §4.1 returns the definition of a
catalogue id, if registered. -/
def Catalogue.lookupVar (cat : Catalogue) (id : String) : Option VarDef :=
  List.find? (fun d => d.id = id) cat

/-- Modelled from the spec: `define(id, type, metadata)` of §4.1 registers a
definition and fails with `DuplicateDefinitionError` if the id is already
present. -/
def Catalogue.define (cat : Catalogue) (d : VarDef) : Except CoreErr Catalogue :=
  match cat.lookupVar d.id with
  | some _ => .error (.duplicateDefinition d.id)
  | none => .ok (List.append cat [d])

/-- Modelled from the spec: `validate(id, value)` of §4.1 — pass/fail check
that a value's runtime shape matches its Variable Definition's structural type
and satisfies the allowed-value constraints; fails for ids unknown to the
catalogue. -/
def Catalogue.validate (cat : Catalogue) (id : String) (v : Value) : Bool :=
  match cat.lookupVar id with
  | none => false
  | some d =>
    decide (v.typeOf = d.vtype) &&
      match d.allowed, v with
      | some xs, .scalar s => xs.contains s
      | some _, _ => true
      | none, _ => true

/-! ## Data State -/

/-- Modelled from the spec: a Data State (§3) — a mapping from variable id to
Structured Value, a `level` tag and a `version` integer. -/
structure DataState where
  mapping : List (String × Value)
  level : String
  version : Nat
  deriving DecidableEq

/-- Modelled from the spec: `merge(state, id, value)` of §4.3 — validates
`value` against the Catalogue, fails with `ValidationError` if mismatched,
otherwise installs the mapping, overwriting any prior value for `id`. -/
def mergeValue (cat : Catalogue) (st : DataState) (id : String) (v : Value) :
    Except CoreErr DataState :=
  if cat.validate id v then .ok { st with mapping := aset st.mapping id v }
  else .error (.validationError id)

/-! ## State History -/

/-- Modelled from the spec: the State History (§3) — the ordered list of
sealed Data States of a project, the pointer to the current version, the next
version to assign, the named level checkpoints, and the timeline log of merge
events (each tagged with the version of the state it was sealed into), which
supports the rewind-and-preserve re-application of §4.3. -/
structure History where
  states : List DataState
  current : Nat
  counter : Nat
  checkpoints : List (String × Nat)
  log : List (Nat × String × Value)
  deriving DecidableEq

/-- The sealed state recorded under version `v`, if any. -/
def History.stateAt (h : History) (v : Nat) : Option DataState :=
  List.find? (fun st => decide (st.version = v)) h.states

/-- The Data State the current pointer refers to. -/
def History.currentState (h : History) : Option DataState := h.stateAt h.current

/-- The value of variable `id` in the current Data State (`get_value`). -/
def History.currentValue (h : History) (id : String) : Option Value :=
  h.currentState.bind (fun st => alookup st.mapping id)

/-- The number of sealed states recorded in the History. -/
def History.versionCount (h : History) : Nat := h.states.length

/-- Modelled from the spec: `seal(state, level)` of §4.3 — assigns the next
version, appends the state to the History, moves the current pointer to it and
records the merge events that produced it in the timeline log. -/
def History.sealState (h : History) (m : List (String × Value)) (level : String)
    (entries : List (String × Value)) : History :=
  { h with
    states := h.states ++ [⟨m, level, h.counter⟩],
    current := h.counter,
    counter := h.counter + 1,
    log := h.log ++ entries.map (fun e => (h.counter, e.1, e.2)) }

/-- Modelled from the spec: `checkpoint(level)` of §4.3 records the current
version under `level`. -/
def History.checkpoint (h : History) (level : String) : History :=
  { h with checkpoints := aset h.checkpoints level h.current }

/-- Install a list of merge events, each through the catalogue validation
path: an event failing validation does not enter the mapping. -/
def installAll (cat : Catalogue) (m : List (String × Value))
    (es : List (String × Value)) : List (String × Value) :=
  es.foldl (fun acc e => if cat.validate e.1 e.2 then aset acc e.1 e.2 else acc) m

/-- Modelled from the spec: `rewind(level, preserve)` of §4.3 — sets the
current pointer to the checkpointed version; with `preserve`, every variable
merged strictly after that checkpoint in the original timeline is re-applied
on top of the rewound state, producing a new sealed state.  Rewinding to an
unknown level fails with `UnknownLevelError`. -/
def History.rewind (cat : Catalogue) (h : History) (level : String)
    (preserve : Bool) : Except CoreErr History :=
  match alookup h.checkpoints level with
  | none => .error (.unknownLevel level)
  | some v0 =>
    match h.stateAt v0 with
    | none => .error (.unknownLevel level)
    | some base =>
      if preserve then
        let entries := (h.log.filter (fun e => decide (v0 < e.1))).map
          (fun e => (e.2.1, e.2.2))
        .ok (h.sealState (installAll cat base.mapping entries) level entries)
      else
        .ok { h with current := v0 }

/-! ## Interface Contracts and the Connector -/

/-- Modelled from the spec: an Interface Contract (§3) — id, required input
ids, optional input ids, output ids, and a pure compute function from an
input mapping to an output mapping (or a failure). -/
structure Contract where
  id : String
  req : List String
  opt : List String
  out : List String
  compute : List (String × Value) → Except String (List (String × Value))

/-- Result of the Connector's executability check. -/
inductive InputStatus where
  | satisfied
  | blocked (ids : List String)
  deriving DecidableEq

/-- Whether a required input id is missing from the state or individually
invalid. -/
def inputBad (cat : Catalogue) (st : DataState) (i : String) : Bool :=
  match alookup st.mapping i with
  | none => true
  | some v => ! cat.validate i v

/-- The required input ids that are missing from the state or individually
invalid. -/
def missingInputs (cat : Catalogue) (c : Contract) (st : DataState) :
    List String :=
  c.req.filter (inputBad cat st)

/-- Modelled from the spec: `status(contract, state)` of §4.4 — `Satisfied`
only if all required ids are present and individually valid, otherwise
`Blocked` with the list of missing/invalid ids.  Optional inputs never
block. -/
def Connector.status (cat : Catalogue) (c : Contract) (st : DataState) :
    InputStatus :=
  if missingInputs cat c st = [] then .satisfied
  else .blocked (missingInputs cat c st)

/-- Restriction of a mapping to the ids present among `ids`. -/
def restrictTo (m : List (String × Value)) (ids : List String) :
    List (String × Value) :=
  ids.filterMap (fun i => (alookup m i).map (fun v => (i, v)))

/-- The input mapping of step 1 of `execute` (§4.4): the state restricted to
the contract's required and optional ids present. -/
def Connector.inputsFor (c : Contract) (st : DataState) :
    List (String × Value) :=
  restrictTo st.mapping (List.append c.req c.opt)

/-- Modelled from the spec: `execute(contract, state)` of §4.4 — build the
input mapping, invoke the compute function (failures re-raised as
`ExecutionError`), validate every produced output against the Catalogue
(failures raise `OutputValidationError` and leave the Data State unmodified),
and on success derive, merge every output and seal a new state with level =
contract id.  Returns the resulting History and an error indicator. -/
def Connector.execute (cat : Catalogue) (c : Contract) (h : History) :
    History × Option CoreErr :=
  match h.currentState with
  | none => (h, some (.notExecutable c.req))
  | some st =>
    match c.compute (Connector.inputsFor c st) with
    | .error cause => (h, some (.executionError c.id cause))
    | .ok outs =>
      if outs.all (fun e => cat.validate e.1 e.2) then
        (h.sealState (setAll st.mapping outs) c.id outs, none)
      else
        (h, some (.outputValidationError c.id))

/-! ## Pipeline: project, stages and menus -/

/-- Modelled from the spec: the pipeline gating finite-state machine of §9 —
Unconfigured → PipelineInitiated → DataflowInitiated. -/
inductive Stage where
  | unconfigured
  | pipelineInitiated
  | dataflowInitiated
  deriving DecidableEq

/-- Rank of a stage in the one-way gate order. -/
def Stage.rank : Stage → Nat
  | .unconfigured => 0
  | .pipelineInitiated => 1
  | .dataflowInitiated => 2

/-- Modelled from the spec: a project — its State History, the registry of
available module contracts, the user-declared activation sequence, the cursor
to the next not-yet-executed module, the branch filtering selections and the
gating stage. -/
structure Project where
  title : String
  history : History
  available : List Contract
  activation : List Contract
  cursor : Nat
  filters : List String
  stage : Stage

/-- Modelled from the spec: `new_project` — a fresh project whose History
holds one empty sealed state at level "initial". -/
def newProject (title : String) (available : List Contract) : Project :=
  { title := title,
    history :=
      { states := [⟨[], "initial", 0⟩],
        current := 0,
        counter := 1,
        checkpoints := [("initial", 0)],
        log := [] },
    available := available,
    activation := [],
    cursor := 0,
    filters := [],
    stage := .unconfigured }

/-- Modelled from the spec: `initiate_pipeline` (§4.5) — a one-way gate that
can only be taken once per project. -/
def initiatePipeline (p : Project) : Project × Option CoreErr :=
  if p.stage = .unconfigured then ({ p with stage := .pipelineInitiated }, none)
  else (p, some .pipelineLocked)

/-- Modelled from the spec: `initiate_dataflow` (§4.5) — a one-way gate that
can only be taken once per project, after the pipeline gate. -/
def initiateDataflow (p : Project) : Project × Option CoreErr :=
  if p.stage = .pipelineInitiated then
    ({ p with stage := .dataflowInitiated }, none)
  else (p, some .pipelineLocked)

/-- Modelled from the spec: `ModuleMenu.activate` (§4.5 and §6) — appends the
named module to the user-declared activation sequence; fails with
`PipelineLockedError` after the dataflow stage has been finalized, and with an
unknown-module error if the name is not registered. -/
def activateModule (p : Project) (name : String) : Project × Option CoreErr :=
  if p.stage = .dataflowInitiated then (p, some .pipelineLocked)
  else
    match List.find? (fun c => decide (c.id = name)) p.available with
    | none => (p, some (.unknownModule name))
    | some c => ({ p with activation := List.append p.activation [c] }, none)

/-- Modelled from the spec: branch filtering (§4.5) — a structural change
rejected with `PipelineLockedError` after the dataflow gate has closed. -/
def filterBranch (p : Project) (name : String) : Project × Option CoreErr :=
  if p.stage = .dataflowInitiated then (p, some .pipelineLocked)
  else ({ p with filters := List.append p.filters [name] }, none)

/-- The "current module": the next not-yet-executed module of the
user-declared activation sequence. -/
def currentModule (p : Project) : Option Contract := p.activation[p.cursor]?

/-- Modelled from the spec: `ModuleMenu.execute_current` (§4.5) — delegates to
`Connector.execute` on the current module and advances the activation cursor
only on success; an unsatisfied current module fails with
`NotExecutableError`. -/
def executeCurrent (cat : Catalogue) (p : Project) : Project × Option CoreErr :=
  match currentModule p with
  | none => (p, some (.notExecutable []))
  | some c =>
    match p.history.currentState with
    | none => (p, some (.notExecutable c.req))
    | some st =>
      match Connector.status cat c st with
      | .blocked ids => (p, some (.notExecutable ids))
      | .satisfied =>
        match Connector.execute cat c p.history with
        | (h', some e) => ({ p with history := h' }, some e)
        | (h', none) => ({ p with history := h', cursor := p.cursor + 1 }, none)

/-- Modelled from the spec: executing a named contract (§4.4 ordering policy)
— a contract other than the current module is out of order and fails with
`NotExecutableError` rather than being silently skipped or reordered. -/
def executeModule (cat : Catalogue) (p : Project) (name : String) :
    Project × Option CoreErr :=
  match currentModule p with
  | none => (p, some (.notExecutable []))
  | some c =>
    if c.id = name then executeCurrent cat p
    else (p, some (.notExecutable [name]))

/-- Modelled from the spec: `set_value(project, id, value)` (§6) — runs the
value through the `merge` validation path against the current state and seals
the result as a new state. -/
def setValue (cat : Catalogue) (p : Project) (id : String) (v : Value) :
    Project × Option CoreErr :=
  match p.history.currentState with
  | none => (p, some (.unknownVariable id))
  | some st =>
    match mergeValue cat st id v with
    | .error e => (p, some e)
    | .ok st' =>
      ({ p with history := p.history.sealState st'.mapping st.level [(id, v)] },
        none)

/-- Modelled from the spec: `reset_level(project, level, preserve)` (§6) —
the surface of the History rewind operation. -/
def resetLevel (cat : Catalogue) (p : Project) (level : String)
    (preserve : Bool) : Project × Option CoreErr :=
  match p.history.rewind cat level preserve with
  | .error e => (p, some e)
  | .ok h' => ({ p with history := h' }, none)

/-- Modelled from the spec: the user surface `checkpoint(level)` on a
project. -/
def checkpointLevel (p : Project) (level : String) : Project :=
  { p with history := p.history.checkpoint level }

/-! ## Serialization of Structured Values

Modelled from the spec: the `to_bytes()` / `from_bytes()` contract of §4.2.
Bytes are modelled as natural numbers; every payload is written with a tag
or length prefix so that decoding is unambiguous. -/

/-- Encode a natural number as one byte. -/
def encodeNat (n : Nat) : List Nat := [n]

/-- Decode a natural number. -/
def decodeNat : List Nat → Option (Nat × List Nat)
  | [] => none
  | n :: rest => some (n, rest)

/-- Encode an integer as a sign byte and a magnitude byte. -/
def encodeInt (i : Int) : List Nat :=
  if i < 0 then [1, (-i).toNat] else [0, i.toNat]

/-- Decode an integer. -/
def decodeInt : List Nat → Option (Int × List Nat)
  | 0 :: m :: rest => some ((m : Int), rest)
  | 1 :: m :: rest => some (-(m : Int), rest)
  | _ => none

/-- Encode a string as a length prefix and its character codes. -/
def encodeString (s : String) : List Nat :=
  s.length :: s.data.map Char.toNat

/-- Decode a string. -/
def decodeString : List Nat → Option (String × List Nat)
  | [] => none
  | n :: rest =>
    if n ≤ rest.length then
      some (String.mk ((rest.take n).map Char.ofNat), rest.drop n)
    else none

/-- Encode a boolean as one byte. -/
def encodeBool (b : Bool) : List Nat := [if b then 1 else 0]

/-- Decode a boolean. -/
def decodeBool : List Nat → Option (Bool × List Nat)
  | [] => none
  | n :: rest => some (decide (n = 1), rest)

/-- Encode a scalar with a variant tag. -/
def encodeScalar : Scalar → List Nat
  | .str s => 0 :: encodeString s
  | .int i => 1 :: encodeInt i
  | .boolean b => 2 :: encodeBool b

/-- Decode a scalar. -/
def decodeScalar : List Nat → Option (Scalar × List Nat)
  | 0 :: rest => (decodeString rest).map (fun r => (.str r.1, r.2))
  | 1 :: rest => (decodeInt rest).map (fun r => (.int r.1, r.2))
  | 2 :: rest => (decodeBool rest).map (fun r => (.boolean r.1, r.2))
  | _ => none

/-- Concatenation of the encodings of a list's elements. -/
def concatMapL {α : Type} (enc : α → List Nat) : List α → List Nat
  | [] => []
  | x :: xs => enc x ++ concatMapL enc xs

/-- Encode a list with a count prefix. -/
def encodeListOf {α : Type} (enc : α → List Nat) (xs : List α) : List Nat :=
  xs.length :: concatMapL enc xs

/-- Decode exactly `n` consecutive elements. -/
def decodeCount {α : Type} (dec : List Nat → Option (α × List Nat)) :
    Nat → List Nat → Option (List α × List Nat)
  | 0, bs => some ([], bs)
  | n + 1, bs =>
    match dec bs with
    | none => none
    | some (x, r1) =>
      match decodeCount dec n r1 with
      | none => none
      | some (xs, r2) => some (x :: xs, r2)

/-- Decode a count-prefixed list. -/
def decodeListOf {α : Type} (dec : List Nat → Option (α × List Nat)) :
    List Nat → Option (List α × List Nat)
  | [] => none
  | n :: rest => decodeCount dec n rest

/-- Encode a pair as the two encodings in sequence. -/
def encodePairOf {α β : Type} (e1 : α → List Nat) (e2 : β → List Nat)
    (p : α × β) : List Nat :=
  e1 p.1 ++ e2 p.2

/-- Decode a pair. -/
def decodePairOf {α β : Type} (d1 : List Nat → Option (α × List Nat))
    (d2 : List Nat → Option (β × List Nat)) (bs : List Nat) :
    Option ((α × β) × List Nat) :=
  match d1 bs with
  | none => none
  | some (a, r1) =>
    match d2 r1 with
    | none => none
    | some (b, r2) => some ((a, b), r2)

mutual

/-- Serialize a Structured Value with a leading variant tag (`to_bytes`). -/
def encodeValue : Value → List Nat
  | .scalar s => 0 :: encodeScalar s
  | .series xs => 1 :: encodeListOf (encodePairOf encodeString encodeScalar) xs
  | .table cols rows =>
      2 :: (encodeListOf encodeString cols ++
        encodeListOf (encodeListOf encodeScalar) rows)
  | .timeSeries xs => 3 :: encodeListOf (encodePairOf encodeNat encodeScalar) xs
  | .geometry pts => 4 :: encodeListOf (encodePairOf encodeInt encodeInt) pts
  | .matrix rlabs clabs grid =>
      5 :: (encodeListOf encodeString rlabs ++
        (encodeListOf encodeString clabs ++
          encodeListOf (encodeListOf encodeInt) grid))
  | .mapping m => 6 :: encodeVMap m

/-- Serialize the entries of a Mapping with cons/nil markers. -/
def encodeVMap : VMap → List Nat
  | .nil => [0]
  | .cons k v rest => 1 :: (encodeString k ++ (encodeValue v ++ encodeVMap rest))

end

mutual

/-- Fuel-indexed decoder for Structured Values; the fuel dominates the
nesting depth of Mapping entries. -/
def decodeValueFuel : Nat → List Nat → Option (Value × List Nat)
  | 0, _ => none
  | fuel + 1, bs =>
    match bs with
    | 0 :: rest => (decodeScalar rest).map (fun r => (.scalar r.1, r.2))
    | 1 :: rest =>
      (decodeListOf (decodePairOf decodeString decodeScalar) rest).map
        (fun r => (.series r.1, r.2))
    | 2 :: rest =>
      match decodeListOf decodeString rest with
      | none => none
      | some (cols, r1) =>
        match decodeListOf (decodeListOf decodeScalar) r1 with
        | none => none
        | some (rows, r2) => some (.table cols rows, r2)
    | 3 :: rest =>
      (decodeListOf (decodePairOf decodeNat decodeScalar) rest).map
        (fun r => (.timeSeries r.1, r.2))
    | 4 :: rest =>
      (decodeListOf (decodePairOf decodeInt decodeInt) rest).map
        (fun r => (.geometry r.1, r.2))
    | 5 :: rest =>
      match decodeListOf decodeString rest with
      | none => none
      | some (rlabs, r1) =>
        match decodeListOf decodeString r1 with
        | none => none
        | some (clabs, r2) =>
          match decodeListOf (decodeListOf decodeInt) r2 with
          | none => none
          | some (grid, r3) => some (.matrix rlabs clabs grid, r3)
    | 6 :: rest => (decodeVMapFuel fuel rest).map (fun r => (.mapping r.1, r.2))
    | _ => none

/-- Fuel-indexed decoder for Mapping entries. -/
def decodeVMapFuel : Nat → List Nat → Option (VMap × List Nat)
  | 0, _ => none
  | fuel + 1, bs =>
    match bs with
    | 0 :: rest => some (.nil, rest)
    | 1 :: rest =>
      match decodeString rest with
      | none => none
      | some (k, r1) =>
        match decodeValueFuel fuel r1 with
        | none => none
        | some (v, r2) =>
          match decodeVMapFuel fuel r2 with
          | none => none
          | some (m, r3) => some (.cons k v m, r3)
    | _ => none

end

mutual

/-- Mapping-nesting depth of a Structured Value, bounding the decoder fuel. -/
def sizeV : Value → Nat
  | .mapping m => sizeM m + 1
  | _ => 0

/-- Mapping-nesting depth of Mapping entries. -/
def sizeM : VMap → Nat
  | .nil => 0
  | .cons _ v rest => max (sizeV v) (sizeM rest) + 1

end

/-- Serialize a Structured Value (`to_bytes()` of §4.2). -/
def Value.toBytes (v : Value) : List Nat := encodeValue v

/-- Deserialize a Structured Value (`from_bytes()` of §4.2), requiring the
whole byte string to be consumed. -/
def Value.fromBytes (bs : List Nat) : Option Value :=
  match decodeValueFuel (bs.length + 1) bs with
  | some (v, []) => some v
  | _ => none

/-! ## History invariants -/

/-- Invariant of §3: sealed versions are strictly increasing (hence unique
within a project) and all below the next version to assign. -/
def versionsOK (h : History) : Prop :=
  List.Pairwise (fun a b => a < b) (h.states.map (fun st => st.version)) ∧
    ∀ st ∈ h.states, st.version < h.counter

instance (h : History) : Decidable (versionsOK h) := by
  unfold versionsOK
  infer_instance

/-! ## Concrete fixtures

A small catalogue and contracts mirroring the notebooks: the enumerated
`device.system_type` variable of Scenario A, and a Hydrodynamics-style module
with required input `x`. -/

/-- A catalogue fragment with the enum-constrained `device.system_type` of
Scenario A and a few unconstrained scalar variables. -/
def demoCat : Catalogue :=
  [ { id := "device.system_type", vtype := .tscalar,
      title := "Device Technology Type",
      allowed := some [.str "Wave Floating", .str "Tidal Fixed"] },
    { id := "x", vtype := .tscalar },
    { id := "project.annual_energy", vtype := .tscalar },
    { id := "a", vtype := .tscalar },
    { id := "b", vtype := .tscalar },
    { id := "c", vtype := .tscalar } ]

/-- A module contract requiring `x` and producing `project.annual_energy`. -/
def hydroContract : Contract :=
  { id := "Hydrodynamics",
    req := ["x"],
    opt := [],
    out := ["project.annual_energy"],
    compute := fun inputs =>
      match alookup inputs "x" with
      | some v => .ok [("project.annual_energy", v)]
      | none => .error "missing input" }

/-- A module contract whose computation always raises. -/
def failingContract : Contract :=
  { id := "Electrical Sub-Systems",
    req := [],
    opt := [],
    out := [],
    compute := fun _ => .error "boom" }

/-- A module contract producing an output unknown to the catalogue, so output
validation fails. -/
def badOutputContract : Contract :=
  { id := "Moorings",
    req := [],
    opt := [],
    out := ["nonexistent.variable"],
    compute := fun _ => .ok [("nonexistent.variable", .scalar (.int 0))] }

/-- The empty initial Data State of a fresh project. -/
def demoState0 : DataState := ⟨[], "initial", 0⟩

/-- A fresh History holding only the initial state. -/
def demoHistory0 : History :=
  { states := [demoState0],
    current := 0,
    counter := 1,
    checkpoints := [("initial", 0)],
    log := [] }

/-- A fresh project with the Hydrodynamics contract registered. -/
def demoProject : Project := newProject "DTOcean" [hydroContract]

/-- A project past both gates with Hydrodynamics activated and its required
input `x` still missing, so its current module is Blocked. -/
def demoBlocked : Project :=
  { title := "DTOcean",
    history := demoHistory0,
    available := [hydroContract],
    activation := [hydroContract],
    cursor := 0,
    filters := [],
    stage := .dataflowInitiated }

/-- The Data State sealed at the Scenario E checkpoint. -/
def demoBase : DataState := ⟨[("x", Value.scalar (.int 1))], "initial", 1⟩

/-- The merge events applied strictly after the Scenario E checkpoint. -/
def demoLater : List (String × Value) :=
  [("a", Value.scalar (.int 10)), ("b", Value.scalar (.int 20)),
    ("c", Value.scalar (.int 30))]

/-- Scenario E run: merge `x`, checkpoint "modules initial", then merge three
further variables `a`, `b`, `c`. -/
def demoC5 : Project :=
  let p1 := (setValue demoCat demoBlocked "x" (.scalar (.int 1))).1
  let p2 := checkpointLevel p1 "modules initial"
  let p3 := (setValue demoCat p2 "a" (.scalar (.int 10))).1
  let p4 := (setValue demoCat p3 "b" (.scalar (.int 20))).1
  (setValue demoCat p4 "c" (.scalar (.int 30))).1

/-- A state carrying the input x = 1. -/
def demoStX : DataState :=
  ⟨[("x", Value.scalar (.int 1))], "initial", 1⟩

/-- A different state carrying the same restriction to the contract inputs. -/
def demoStY : DataState :=
  ⟨[("x", Value.scalar (.int 1)), ("a", Value.scalar (.int 7))], "other", 2⟩

/-! ## Theorems -/

theorem alookup_aerase {α : Type} (m : List (String × α)) (k k' : String)
    (h : k' ≠ k) : alookup (aerase m k) k' = alookup m k' := by
  induction m with
  | nil => rfl
  | cons p rest ih =>
    obtain ⟨a, b⟩ := p
    by_cases hp : a = k
    · have ha : ¬ a = k' := fun hh => h (hh ▸ hp)
      simp only [aerase, alookup, if_pos hp, if_neg ha, ih]
    · by_cases ha : a = k'
      · simp only [aerase, alookup, if_neg hp, if_pos ha]
      · simp only [aerase, alookup, if_neg hp, if_neg ha, ih]

theorem alookup_aset_same {α : Type} (m : List (String × α)) (k : String) (v : α) :
    alookup (aset m k v) k = some v := by
  simp [aset, alookup]

theorem alookup_aset_other {α : Type} (m : List (String × α)) (k k' : String)
    (v : α) (h : k' ≠ k) : alookup (aset m k v) k' = alookup m k' := by
  simp only [aset, alookup]
  rw [if_neg (fun hh : k = k' => h hh.symm)]
  exact alookup_aerase m k k' h

theorem alookup_setAll {α : Type} (es : List (String × α)) (m : List (String × α))
    (k : String) :
    alookup (setAll m es) k =
      match findLast es k with
      | some w => some w
      | none => alookup m k := by
  induction es generalizing m with
  | nil => rfl
  | cons e rest ih =>
    cases e with
    | mk k' v =>
      simp only [setAll, List.foldl_cons, findLast]
      rw [← setAll, ih]
      cases hrest : findLast rest k with
      | some w => simp
      | none =>
        simp only
        by_cases hk : k' = k
        · subst hk
          simp [alookup_aset_same]
        · rw [if_neg hk, alookup_aset_other _ _ _ _ (fun hh => hk hh.symm)]

theorem installAll_eq_setAll (cat : Catalogue) (m : List (String × Value))
    (es : List (String × Value))
    (hval : ∀ e ∈ es, cat.validate e.1 e.2 = true) :
    installAll cat m es = setAll m es := by
  induction es generalizing m with
  | nil => rfl
  | cons e rest ih =>
    simp only [installAll, setAll, List.foldl_cons]
    rw [if_pos (hval e (List.mem_cons_self e rest))]
    exact ih (aset m e.1 e.2) (fun x hx => hval x (List.mem_cons_of_mem e hx))

theorem find?_version_append_last (sts : List DataState) (st : DataState)
    (hv : ∀ s ∈ sts, s.version < st.version) :
    List.find? (fun s => decide (s.version = st.version)) (sts ++ [st]) =
      some st := by
  induction sts with
  | nil => simp [List.find?]
  | cons s rest ih =>
    have hs : s.version < st.version := hv s (List.mem_cons_self s rest)
    simp only [List.cons_append, List.find?]
    rw [decide_eq_false (by omega)]
    exact ih (fun x hx => hv x (List.mem_cons_of_mem s hx))

theorem currentState_sealState (h : History) (m : List (String × Value))
    (level : String) (entries : List (String × Value))
    (hv : ∀ s ∈ h.states, s.version < h.counter) :
    (h.sealState m level entries).currentState = some ⟨m, level, h.counter⟩ := by
  simp only [History.sealState, History.currentState, History.stateAt]
  exact find?_version_append_last h.states ⟨m, level, h.counter⟩ hv

theorem decodeNat_encode (n : Nat) (rest : List Nat) :
    decodeNat (encodeNat n ++ rest) = some (n, rest) := rfl

theorem decodeInt_encode (i : Int) (rest : List Nat) :
    decodeInt (encodeInt i ++ rest) = some (i, rest) := by
  by_cases hi : i < 0
  · simp only [encodeInt, if_pos hi, List.cons_append, List.nil_append, decodeInt]
    rw [Int.toNat_of_nonneg (by omega)]
    simp
  · simp only [encodeInt, if_neg hi, List.cons_append, List.nil_append, decodeInt]
    rw [Int.toNat_of_nonneg (by omega)]

theorem map_ofNat_map_toNat (l : List Char) :
    (l.map Char.toNat).map Char.ofNat = l := by
  induction l with
  | nil => rfl
  | cons c cs ih => simp only [List.map_cons, Char.ofNat_toNat, ih]

theorem decodeString_encode (s : String) (rest : List Nat) :
    decodeString (encodeString s ++ rest) = some (s, rest) := by
  simp only [encodeString, List.cons_append, decodeString]
  have hlen : s.length = (s.data.map Char.toNat).length := by
    rw [List.length_map]; rfl
  rw [if_pos (by rw [hlen, List.length_append]; omega)]
  rw [hlen, List.take_left, List.drop_left, map_ofNat_map_toNat]

theorem decodeBool_encode (b : Bool) (rest : List Nat) :
    decodeBool (encodeBool b ++ rest) = some (b, rest) := by
  cases b <;> simp [encodeBool, decodeBool]

theorem decodeScalar_encode (s : Scalar) (rest : List Nat) :
    decodeScalar (encodeScalar s ++ rest) = some (s, rest) := by
  cases s <;>
    simp [encodeScalar, decodeScalar, decodeString_encode, decodeInt_encode,
      decodeBool_encode]

theorem decodePairOf_encode {α β : Type} {d1 : List Nat → Option (α × List Nat)}
    {d2 : List Nat → Option (β × List Nat)} {e1 : α → List Nat}
    {e2 : β → List Nat} {a : α} {b : β}
    (h1 : ∀ rest, d1 (e1 a ++ rest) = some (a, rest))
    (h2 : ∀ rest, d2 (e2 b ++ rest) = some (b, rest)) (rest : List Nat) :
    decodePairOf d1 d2 (encodePairOf e1 e2 (a, b) ++ rest) = some ((a, b), rest) := by
  simp only [encodePairOf, decodePairOf, List.append_assoc, h1, h2]

theorem decodeCount_encode {α : Type} {dec : List Nat → Option (α × List Nat)}
    {enc : α → List Nat} (xs : List α)
    (H : ∀ x ∈ xs, ∀ rest, dec (enc x ++ rest) = some (x, rest)) (rest : List Nat) :
    decodeCount dec xs.length (concatMapL enc xs ++ rest) = some (xs, rest) := by
  induction xs with
  | nil => simp [decodeCount, concatMapL]
  | cons x xs ih =>
    have hx := H x (List.mem_cons_self x xs)
    have ih' := ih (fun y hy => H y (List.mem_cons_of_mem x hy))
    simp only [List.length_cons, concatMapL, List.append_assoc, decodeCount, hx, ih']

theorem decodeListOf_encode {α : Type} {dec : List Nat → Option (α × List Nat)}
    {enc : α → List Nat} (xs : List α)
    (H : ∀ x ∈ xs, ∀ rest, dec (enc x ++ rest) = some (x, rest)) (rest : List Nat) :
    decodeListOf dec (encodeListOf enc xs ++ rest) = some (xs, rest) := by
  simp only [encodeListOf, List.cons_append, decodeListOf]
  exact decodeCount_encode xs H rest

mutual

theorem decodeValueFuel_encode (v : Value) :
    ∀ fuel, sizeV v < fuel →
      ∀ rest, decodeValueFuel fuel (encodeValue v ++ rest) = some (v, rest) := by
  cases v with
  | scalar s =>
    intro fuel hf rest
    cases fuel with
    | zero => omega
    | succ f =>
      simp [encodeValue, decodeValueFuel, decodeScalar_encode]
  | series xs =>
    intro fuel hf rest
    cases fuel with
    | zero => omega
    | succ f =>
      have H : ∀ x ∈ xs, ∀ r,
          decodePairOf decodeString decodeScalar
            (encodePairOf encodeString encodeScalar x ++ r) = some (x, r) := by
        intro x _ r
        obtain ⟨a, b⟩ := x
        exact decodePairOf_encode (decodeString_encode a) (decodeScalar_encode b) r
      simp [encodeValue, decodeValueFuel, decodeListOf_encode xs H rest]
  | table cols rows =>
    intro fuel hf rest
    cases fuel with
    | zero => omega
    | succ f =>
      have Hc : ∀ x ∈ cols, ∀ r, decodeString (encodeString x ++ r) = some (x, r) :=
        fun x _ r => decodeString_encode x r
      have Hr : ∀ x ∈ rows, ∀ r,
          decodeListOf decodeScalar (encodeListOf encodeScalar x ++ r) =
            some (x, r) :=
        fun x _ r => decodeListOf_encode x (fun y _ r' => decodeScalar_encode y r') r
      simp only [encodeValue, List.cons_append, List.append_assoc, decodeValueFuel,
        decodeListOf_encode cols Hc, decodeListOf_encode rows Hr]
  | timeSeries xs =>
    intro fuel hf rest
    cases fuel with
    | zero => omega
    | succ f =>
      have H : ∀ x ∈ xs, ∀ r,
          decodePairOf decodeNat decodeScalar
            (encodePairOf encodeNat encodeScalar x ++ r) = some (x, r) := by
        intro x _ r
        obtain ⟨a, b⟩ := x
        exact decodePairOf_encode (decodeNat_encode a) (decodeScalar_encode b) r
      simp [encodeValue, decodeValueFuel, decodeListOf_encode xs H rest]
  | geometry pts =>
    intro fuel hf rest
    cases fuel with
    | zero => omega
    | succ f =>
      have H : ∀ x ∈ pts, ∀ r,
          decodePairOf decodeInt decodeInt
            (encodePairOf encodeInt encodeInt x ++ r) = some (x, r) := by
        intro x _ r
        obtain ⟨a, b⟩ := x
        exact decodePairOf_encode (decodeInt_encode a) (decodeInt_encode b) r
      simp [encodeValue, decodeValueFuel, decodeListOf_encode pts H rest]
  | matrix rlabs clabs grid =>
    intro fuel hf rest
    cases fuel with
    | zero => omega
    | succ f =>
      have Hs : ∀ (l : List String), ∀ x ∈ l, ∀ r,
          decodeString (encodeString x ++ r) = some (x, r) :=
        fun _ x _ r => decodeString_encode x r
      have Hg : ∀ x ∈ grid, ∀ r,
          decodeListOf decodeInt (encodeListOf encodeInt x ++ r) = some (x, r) :=
        fun x _ r => decodeListOf_encode x (fun y _ r' => decodeInt_encode y r') r
      simp only [encodeValue, List.cons_append, List.append_assoc, decodeValueFuel,
        decodeListOf_encode rlabs (Hs rlabs), decodeListOf_encode clabs (Hs clabs),
        decodeListOf_encode grid Hg]
  | mapping m =>
    intro fuel hf rest
    cases fuel with
    | zero => omega
    | succ f =>
      have hm : sizeM m < f := by
        have : sizeV (.mapping m) = sizeM m + 1 := rfl
        omega
      simp [encodeValue, decodeValueFuel, decodeVMapFuel_encode m f hm rest]

theorem decodeVMapFuel_encode (m : VMap) :
    ∀ fuel, sizeM m < fuel →
      ∀ rest, decodeVMapFuel fuel (encodeVMap m ++ rest) = some (m, rest) := by
  cases m with
  | nil =>
    intro fuel hf rest
    cases fuel with
    | zero => omega
    | succ f => simp [encodeVMap, decodeVMapFuel]
  | cons k v tail =>
    intro fuel hf rest
    cases fuel with
    | zero => omega
    | succ f =>
      have hsz : sizeM (.cons k v tail) = max (sizeV v) (sizeM tail) + 1 := rfl
      have hv : sizeV v < f := by
        have := Nat.le_max_left (sizeV v) (sizeM tail)
        omega
      have ht : sizeM tail < f := by
        have := Nat.le_max_right (sizeV v) (sizeM tail)
        omega
      simp only [encodeVMap, List.cons_append, List.append_assoc, decodeVMapFuel,
        decodeString_encode k, decodeValueFuel_encode v f hv,
        decodeVMapFuel_encode tail f ht]

end

mutual

theorem sizeV_le_len (v : Value) : sizeV v ≤ (encodeValue v).length := by
  cases v with
  | mapping m =>
    have h := sizeM_le_len m
    simp only [sizeV, encodeValue, List.length_cons]
    omega
  | scalar s => exact Nat.zero_le _
  | series xs => exact Nat.zero_le _
  | table cols rows => exact Nat.zero_le _
  | timeSeries xs => exact Nat.zero_le _
  | geometry pts => exact Nat.zero_le _
  | matrix rlabs clabs grid => exact Nat.zero_le _

theorem sizeM_le_len (m : VMap) : sizeM m ≤ (encodeVMap m).length := by
  cases m with
  | nil => exact Nat.zero_le _
  | cons k v tail =>
    have hv := sizeV_le_len v
    have ht := sizeM_le_len tail
    have hmax : max (sizeV v) (sizeM tail) ≤ sizeV v + sizeM tail :=
      Nat.max_le.mpr ⟨Nat.le_add_right _ _, Nat.le_add_left _ _⟩
    simp only [sizeM, encodeVMap, List.length_cons, List.length_append]
    omega

end

/-! ## Claim theorems -/

/-- C8: for every Structured Value v of every variant (Scalar, Series, Table,
TimeSeries, Geometry, Matrix, Mapping), the serialization round-trip
from_bytes(to_bytes(v)) yields a value that equals(v). -/
theorem serialization_roundtrip (v : Value) :
    Value.fromBytes (Value.toBytes v) = some v ∧ Value.equals v v = true := by
  constructor
  · have hb : sizeV v < (encodeValue v).length + 1 :=
      Nat.lt_succ_of_le (sizeV_le_len v)
    have h := decodeValueFuel_encode v ((encodeValue v).length + 1) hb []
    rw [List.append_nil] at h
    simp only [Value.fromBytes, Value.toBytes, h]
  · simp [Value.equals]

/-- C1: if execute fails — whether the compute function raises (re-raised as
ExecutionError) or any produced output fails catalogue validation
(OutputValidationError) — the State History, and with it the current Data
State (same version, same mapping), is exactly as before the call: no partial
merge of any output, all-or-nothing atomicity. -/
theorem execute_atomic (cat : Catalogue) (c : Contract) (h : History)
    (e : CoreErr) (hfail : (Connector.execute cat c h).2 = some e) :
    (Connector.execute cat c h).1 = h ∧
    (Connector.execute cat c h).1.currentState = h.currentState ∧
    (Connector.execute cat c h).1.versionCount = h.versionCount := by
  have hmain : (Connector.execute cat c h).1 = h := by
    simp only [Connector.execute] at hfail ⊢
    cases hcs : h.currentState with
    | none => simp only [hcs]
    | some st =>
      simp only [hcs] at hfail ⊢
      cases hcomp : c.compute (Connector.inputsFor c st) with
      | error cause => simp only [hcomp]
      | ok outs =>
        simp only [hcomp] at hfail ⊢
        by_cases hval : (outs.all fun p => cat.validate p.1 p.2) = true
        · rw [if_pos hval] at hfail
          exact Option.noConfusion hfail
        · rw [if_neg hval]
  exact ⟨hmain, by rw [hmain], by rw [hmain]⟩

/-- Witness for C1: a contract whose compute raises leaves the demo History
untouched. -/
theorem execute_atomic_witness :
    (Connector.execute demoCat failingContract demoHistory0).2 =
      some (.executionError "Electrical Sub-Systems" "boom") ∧
    (Connector.execute demoCat failingContract demoHistory0).1 = demoHistory0 :=
  ⟨by rfl, (execute_atomic demoCat failingContract demoHistory0
    (.executionError "Electrical Sub-Systems" "boom") (by rfl)).1⟩

/-- C2: merge validates the value against the Catalogue and either fails with
ValidationError when validation fails, or installs the mapping, overwriting
any prior value; no value enters a Data State without passing validation; and
Scenario A: set_value of "Wave Floating" for device.system_type succeeds while
"Hover Craft" fails with ValidationError. -/
theorem merge_validation (cat : Catalogue) (st : DataState) (id : String)
    (v : Value) :
    (cat.validate id v = true →
      mergeValue cat st id v = .ok { st with mapping := aset st.mapping id v } ∧
      alookup (aset st.mapping id v) id = some v) ∧
    (cat.validate id v = false →
      mergeValue cat st id v = .error (.validationError id)) ∧
    (∀ st', mergeValue cat st id v = .ok st' → cat.validate id v = true) ∧
    (setValue demoCat demoBlocked "device.system_type"
      (Value.scalar (.str "Wave Floating"))).2 = none ∧
    (setValue demoCat demoBlocked "device.system_type"
      (Value.scalar (.str "Hover Craft"))).2 =
        some (.validationError "device.system_type") := by
  refine ⟨?_, ?_, ?_, by decide, by decide⟩
  · intro hv
    exact ⟨by simp [mergeValue, hv], alookup_aset_same st.mapping id v⟩
  · intro hv
    simp [mergeValue, hv]
  · intro st' hok
    by_cases hv : cat.validate id v = true
    · exact hv
    · simp [mergeValue, hv] at hok

/-- Witness for C2 at a validating merge. -/
theorem merge_validation_witness :
    demoCat.validate "x" (Value.scalar (.int 1)) = true ∧
    mergeValue demoCat demoState0 "x" (Value.scalar (.int 1)) =
      .ok { demoState0 with
        mapping := aset demoState0.mapping "x" (Value.scalar (.int 1)) } :=
  ⟨by decide,
    ((merge_validation demoCat demoState0 "x" (Value.scalar (.int 1))).1
      (by decide)).1⟩

/-- C3: status(contract, state) returns Satisfied iff every required input id
is present and individually valid, otherwise Blocked carrying exactly the
missing/invalid required ids; optional inputs never affect the status; and
Scenario B: a contract requiring only x is Blocked(["x"]) before x is merged
and Satisfied after. -/
theorem status_spec (cat : Catalogue) (c : Contract) (st : DataState) :
    (Connector.status cat c st = .satisfied ↔
      ∀ i ∈ c.req, ∃ v, alookup st.mapping i = some v ∧
        cat.validate i v = true) ∧
    (Connector.status cat c st = .satisfied ∨
      Connector.status cat c st = .blocked (missingInputs cat c st)) ∧
    (∀ i, i ∈ missingInputs cat c st ↔
      (i ∈ c.req ∧ (alookup st.mapping i = none ∨
        ∃ v, alookup st.mapping i = some v ∧ cat.validate i v = false))) ∧
    (∀ os, Connector.status cat { c with opt := os } st =
      Connector.status cat c st) ∧
    Connector.status demoCat hydroContract demoState0 = .blocked ["x"] ∧
    (mergeValue demoCat demoState0 "x" (Value.scalar (.int 1))).map
      (fun st' => Connector.status demoCat hydroContract st') = .ok .satisfied := by
  have hpred : ∀ i, inputBad cat st i = true ↔
      (alookup st.mapping i = none ∨
        ∃ v, alookup st.mapping i = some v ∧ cat.validate i v = false) := by
    intro i
    cases halk : alookup st.mapping i with
    | none => simp [inputBad, halk]
    | some v =>
      simp only [inputBad, halk, Bool.not_eq_true']
      constructor
      · intro hv
        exact Or.inr ⟨v, rfl, hv⟩
      · rintro (hc | ⟨w, hw, hv⟩)
        · exact absurd hc (by simp)
        · cases hw
          exact hv
  refine ⟨?_, ?_, ?_, ?_, by decide, by decide⟩
  · constructor
    · intro hsat i hi
      by_cases hmiss : missingInputs cat c st = []
      · have hnot : i ∉ missingInputs cat c st := by
          rw [hmiss]
          exact List.not_mem_nil i
        rw [missingInputs] at hnot
        have hnp : ¬ inputBad cat st i = true :=
          fun hpi => hnot (List.mem_filter.mpr ⟨hi, hpi⟩)
        cases halk : alookup st.mapping i with
        | none => exact absurd (by simp [inputBad, halk]) hnp
        | some v =>
          cases hvb : cat.validate i v with
          | true => exact ⟨v, rfl, hvb⟩
          | false => exact absurd (by simp [inputBad, halk, hvb]) hnp
      · rw [Connector.status, if_neg hmiss] at hsat
        cases hsat
    · intro hall
      have hmiss : missingInputs cat c st = [] := by
        rw [missingInputs, List.filter_eq_nil_iff]
        intro i hi
        obtain ⟨v, hv, hval⟩ := hall i hi
        simp [inputBad, hv, hval]
      rw [Connector.status, if_pos hmiss]
  · by_cases hmiss : missingInputs cat c st = []
    · exact Or.inl (by rw [Connector.status, if_pos hmiss])
    · exact Or.inr (by rw [Connector.status, if_neg hmiss])
  · intro i
    rw [missingInputs, List.mem_filter]
    exact and_congr_right (fun _ => hpred i)
  · intro os
    rfl

/-- Witness for C3: the Scenario B instance extracted from the theorem. -/
theorem status_spec_witness :
    Connector.status demoCat hydroContract demoState0 = .blocked ["x"] :=
  (status_spec demoCat hydroContract demoState0).2.2.2.2.1

/-- C7: execution is idempotent with respect to inputs — executing the same
Interface Contract twice with an unchanged input mapping yields output
mappings that are equals to each other, for any Data States supplying those
inputs. -/
theorem execute_idempotent (c : Contract)
    (st1 st2 : DataState)
    (hin : Connector.inputsFor c st1 = Connector.inputsFor c st2) :
    c.compute (Connector.inputsFor c st1) =
      c.compute (Connector.inputsFor c st2) ∧
    (∀ outs1 outs2, c.compute (Connector.inputsFor c st1) = .ok outs1 →
      c.compute (Connector.inputsFor c st2) = .ok outs2 →
      List.Forall₂ (fun a b => a.1 = b.1 ∧ Value.equals a.2 b.2 = true)
        outs1 outs2) := by
  have hc : c.compute (Connector.inputsFor c st1) =
      c.compute (Connector.inputsFor c st2) := by rw [hin]
  refine ⟨hc, ?_⟩
  intro outs1 outs2 h1 h2
  rw [h1, h2] at hc
  injection hc with he
  subst he
  refine List.forall₂_same.mpr ?_
  intro x _
  exact ⟨rfl, by simp [Value.equals]⟩

/-- Witness for C7: two distinct states with the same input restriction give
pointwise-equal outputs. -/
theorem execute_idempotent_witness :
    Connector.inputsFor hydroContract demoStX =
      Connector.inputsFor hydroContract demoStY ∧
    List.Forall₂ (fun a b => a.1 = b.1 ∧ Value.equals a.2 b.2 = true)
      [("project.annual_energy", Value.scalar (.int 1))]
      [("project.annual_energy", Value.scalar (.int 1))] :=
  ⟨by decide,
    (execute_idempotent hydroContract demoStX demoStY (by decide)).2
      [("project.annual_energy", Value.scalar (.int 1))]
      [("project.annual_energy", Value.scalar (.int 1))] (by rfl) (by rfl)⟩

/-- C4: the scheduler never reorders modules — the current module is always
the next not-yet-executed module of the user-declared activation sequence;
executing it when Blocked fails with NotExecutableError and leaves the
History version count unchanged, an out-of-order contract fails with
NotExecutableError (never a silent skip), and the cursor advances only on
success. -/
theorem scheduler_policy (cat : Catalogue) (p : Project) :
    (currentModule p = p.activation[p.cursor]?) ∧
    (∀ c st ids, currentModule p = some c →
      p.history.currentState = some st →
      Connector.status cat c st = .blocked ids →
      executeCurrent cat p = (p, some (.notExecutable ids)) ∧
      (executeCurrent cat p).1.history.versionCount =
        p.history.versionCount) ∧
    (∀ c name, currentModule p = some c → ¬ c.id = name →
      executeModule cat p name = (p, some (.notExecutable [name]))) ∧
    (∀ p', executeCurrent cat p = (p', none) →
      p'.cursor = p.cursor + 1 ∧ p'.activation = p.activation ∧
      ∃ c, currentModule p = some c) := by
  refine ⟨rfl, ?_, ?_, ?_⟩
  · intro c st ids hcm hst hstatus
    have hrun : executeCurrent cat p = (p, some (.notExecutable ids)) := by
      simp only [executeCurrent, hcm, hst, hstatus]
    exact ⟨hrun, by rw [hrun]⟩
  · intro c name hcm hne
    simp only [executeModule, hcm, if_neg hne]
  · intro p' hsucc
    cases hcm : currentModule p with
    | none => simp [executeCurrent, hcm] at hsucc
    | some c =>
      cases hst : p.history.currentState with
      | none => simp [executeCurrent, hcm, hst] at hsucc
      | some st =>
        cases hstatus : Connector.status cat c st with
        | blocked ids => simp [executeCurrent, hcm, hst, hstatus] at hsucc
        | satisfied =>
          rcases hex : Connector.execute cat c p.history with ⟨h', err⟩
          cases err with
          | some e => simp [executeCurrent, hcm, hst, hstatus, hex] at hsucc
          | none =>
            simp only [executeCurrent, hcm, hst, hstatus, hex] at hsucc
            have hp' := congrArg Prod.fst hsucc
            simp only at hp'
            refine ⟨?_, ?_, c, by simp [hcm]⟩
            · rw [← hp']
            · rw [← hp']

/-- Witness for C4: the Blocked demo project fails with NotExecutableError
and the version count is unchanged. -/
theorem scheduler_policy_witness :
    currentModule demoBlocked = some hydroContract ∧
    demoBlocked.history.currentState = some demoState0 ∧
    Connector.status demoCat hydroContract demoState0 = .blocked ["x"] ∧
    executeCurrent demoCat demoBlocked =
      (demoBlocked, some (.notExecutable ["x"])) :=
  ⟨rfl, by decide, by decide,
    ((scheduler_policy demoCat demoBlocked).2.1 hydroContract demoState0 ["x"]
      rfl (by decide) (by decide)).1⟩

/-- C10: module activation is irreversible — no operation of the public
surface removes a module from the activation sequence: activate only appends
(and only a registered module with the requested name), and every other
surface operation leaves the activation sequence unchanged. -/
theorem activation_grows (cat : Catalogue) (p : Project)
    (name level id : String) (v : Value) (preserve : Bool) :
    (p.activation <+: (activateModule p name).1.activation) ∧
    ((activateModule p name).2 = none →
      ∃ c, (activateModule p name).1.activation = List.append p.activation [c] ∧
        c.id = name) ∧
    (executeCurrent cat p).1.activation = p.activation ∧
    (executeModule cat p name).1.activation = p.activation ∧
    (setValue cat p id v).1.activation = p.activation ∧
    (resetLevel cat p level preserve).1.activation = p.activation ∧
    (filterBranch p name).1.activation = p.activation ∧
    (initiatePipeline p).1.activation = p.activation ∧
    (initiateDataflow p).1.activation = p.activation ∧
    (checkpointLevel p level).activation = p.activation := by
  have hact : ∀ q : Project × Option CoreErr,
      q = activateModule p name →
      p.activation <+: q.1.activation ∧
      (q.2 = none → ∃ c, q.1.activation = List.append p.activation [c] ∧
        c.id = name) := by
    intro q hq
    by_cases hstage : p.stage = Stage.dataflowInitiated
    · rw [activateModule, if_pos hstage] at hq
      subst hq
      exact ⟨List.prefix_rfl, fun hnone => Option.noConfusion hnone⟩
    · rw [activateModule, if_neg hstage] at hq
      cases hfind : List.find? (fun c => decide (c.id = name)) p.available with
      | none =>
        rw [hfind] at hq
        subst hq
        exact ⟨List.prefix_rfl, fun hnone => Option.noConfusion hnone⟩
      | some c =>
        rw [hfind] at hq
        subst hq
        refine ⟨List.prefix_append p.activation [c], fun _ => ⟨c, rfl, ?_⟩⟩
        have := List.find?_some hfind
        exact of_decide_eq_true this
  have hexec : (executeCurrent cat p).1.activation = p.activation := by
    cases hcm : currentModule p with
    | none => simp [executeCurrent, hcm]
    | some c =>
      cases hst : p.history.currentState with
      | none => simp [executeCurrent, hcm, hst]
      | some st =>
        cases hstatus : Connector.status cat c st with
        | blocked ids => simp [executeCurrent, hcm, hst, hstatus]
        | satisfied =>
          rcases hex : Connector.execute cat c p.history with ⟨h', err⟩
          cases err with
          | some e => simp [executeCurrent, hcm, hst, hstatus, hex]
          | none => simp [executeCurrent, hcm, hst, hstatus, hex]
  have hmod : (executeModule cat p name).1.activation = p.activation := by
    cases hcm : currentModule p with
    | none => simp [executeModule, hcm]
    | some c =>
      by_cases hname : c.id = name
      · simp only [executeModule, hcm, if_pos hname]
        exact hexec
      · simp [executeModule, hcm, if_neg hname]
  have hset : (setValue cat p id v).1.activation = p.activation := by
    cases hst : p.history.currentState with
    | none => simp [setValue, hst]
    | some st =>
      cases hmrg : mergeValue cat st id v with
      | error e => simp [setValue, hst, hmrg]
      | ok st' => simp [setValue, hst, hmrg]
  have hreset : (resetLevel cat p level preserve).1.activation = p.activation := by
    cases hrw : p.history.rewind cat level preserve with
    | error e => simp [resetLevel, hrw]
    | ok h' => simp [resetLevel, hrw]
  have hfilter : (filterBranch p name).1.activation = p.activation := by
    by_cases hstage : p.stage = Stage.dataflowInitiated
    · simp [filterBranch, hstage]
    · simp [filterBranch, hstage]
  have hpipe : (initiatePipeline p).1.activation = p.activation := by
    by_cases hstage : p.stage = Stage.unconfigured
    · simp [initiatePipeline, hstage]
    · simp [initiatePipeline, hstage]
  have hdf : (initiateDataflow p).1.activation = p.activation := by
    by_cases hstage : p.stage = Stage.pipelineInitiated
    · simp [initiateDataflow, hstage]
    · simp [initiateDataflow, hstage]
  obtain ⟨h1, h2⟩ := hact (activateModule p name) rfl
  exact ⟨h1, h2, hexec, hmod, hset, hreset, hfilter, hpipe, hdf, rfl⟩

/-- Witness for C10: activating Hydrodynamics on the fresh project succeeds
and appends it. -/
theorem activation_grows_witness :
    (activateModule demoProject "Hydrodynamics").2 = none ∧
    ∃ c, (activateModule demoProject "Hydrodynamics").1.activation =
      List.append demoProject.activation [c] ∧ c.id = "Hydrodynamics" :=
  ⟨by rfl,
    (activation_grows demoCat demoProject "Hydrodynamics" "initial" "x"
      (Value.scalar (.int 1)) false).2.1 (by rfl)⟩

/-- C6 counterexample: the pipeline gate alone does not lock out structural
changes — after initiate_pipeline has been taken (so that gate is closed and
a second call is rejected), module activation still succeeds and changes the
activation sequence, exactly as the example notebooks do between the two
gates.  This refutes the claim that after a gate has closed every subsequent
structural change is rejected with PipelineLockedError. -/
theorem gates_counterexample :
    (initiatePipeline demoProject).2 = none ∧
    (initiatePipeline (initiatePipeline demoProject).1).2 =
      some .pipelineLocked ∧
    (activateModule (initiatePipeline demoProject).1 "Hydrodynamics").2 =
      none ∧
    (activateModule (initiatePipeline demoProject).1
        "Hydrodynamics").1.activation.length =
      (initiatePipeline demoProject).1.activation.length + 1 :=
  ⟨rfl, rfl, rfl, rfl⟩

/-- C6 (amended): initiate_pipeline and initiate_dataflow are one-way gates —
each succeeds only from its predecessor stage (so each can close at most once
per project) and a repeat call is rejected with PipelineLockedError with no
state change; no surface operation moves the stage backwards; and after the
dataflow gate has closed every structural change (module activation, branch
filtering) is rejected with PipelineLockedError with no state change. -/
theorem gates_one_way (cat : Catalogue) (p : Project) (name level id : String)
    (v : Value) (preserve : Bool) :
    (¬ p.stage = .unconfigured →
      initiatePipeline p = (p, some .pipelineLocked)) ∧
    (¬ p.stage = .pipelineInitiated →
      initiateDataflow p = (p, some .pipelineLocked)) ∧
    (p.stage.rank ≤ (initiatePipeline p).1.stage.rank) ∧
    (p.stage.rank ≤ (initiateDataflow p).1.stage.rank) ∧
    ((activateModule p name).1.stage = p.stage) ∧
    ((filterBranch p name).1.stage = p.stage) ∧
    ((executeCurrent cat p).1.stage = p.stage) ∧
    ((setValue cat p id v).1.stage = p.stage) ∧
    ((resetLevel cat p level preserve).1.stage = p.stage) ∧
    ((checkpointLevel p level).stage = p.stage) ∧
    (p.stage = .dataflowInitiated →
      activateModule p name = (p, some .pipelineLocked) ∧
      filterBranch p name = (p, some .pipelineLocked)) := by
  refine ⟨?_, ?_, ?_, ?_, ?_, ?_, ?_, ?_, ?_, rfl, ?_⟩
  · intro hstage
    simp [initiatePipeline, hstage]
  · intro hstage
    simp [initiateDataflow, hstage]
  · by_cases hstage : p.stage = Stage.unconfigured
    · simp [initiatePipeline, hstage, Stage.rank]
    · simp [initiatePipeline, hstage]
  · by_cases hstage : p.stage = Stage.pipelineInitiated
    · simp [initiateDataflow, hstage, Stage.rank]
    · simp [initiateDataflow, hstage]
  · by_cases hstage : p.stage = Stage.dataflowInitiated
    · simp [activateModule, hstage]
    · simp only [activateModule, if_neg hstage]
      cases hfind : List.find? (fun c => decide (c.id = name)) p.available with
      | none => simp [hfind]
      | some c => simp [hfind]
  · by_cases hstage : p.stage = Stage.dataflowInitiated
    · simp [filterBranch, hstage]
    · simp [filterBranch, hstage]
  · cases hcm : currentModule p with
    | none => simp [executeCurrent, hcm]
    | some c =>
      cases hst : p.history.currentState with
      | none => simp [executeCurrent, hcm, hst]
      | some st =>
        cases hstatus : Connector.status cat c st with
        | blocked ids => simp [executeCurrent, hcm, hst, hstatus]
        | satisfied =>
          rcases hex : Connector.execute cat c p.history with ⟨h', err⟩
          cases err with
          | some e => simp [executeCurrent, hcm, hst, hstatus, hex]
          | none => simp [executeCurrent, hcm, hst, hstatus, hex]
  · cases hst : p.history.currentState with
    | none => simp [setValue, hst]
    | some st =>
      cases hmrg : mergeValue cat st id v with
      | error e => simp [setValue, hst, hmrg]
      | ok st' => simp [setValue, hst, hmrg]
  · cases hrw : p.history.rewind cat level preserve with
    | error e => simp [resetLevel, hrw]
    | ok h' => simp [resetLevel, hrw]
  · intro hstage
    exact ⟨by simp [activateModule, hstage], by simp [filterBranch, hstage]⟩

/-- Witness for C6 (amended): on the dataflow-locked demo project both
structural changes are rejected with PipelineLockedError and no state
change. -/
theorem gates_one_way_witness :
    demoBlocked.stage = .dataflowInitiated ∧
    activateModule demoBlocked "Hydrodynamics" =
      (demoBlocked, some .pipelineLocked) ∧
    filterBranch demoBlocked "Site Boundary" =
      (demoBlocked, some .pipelineLocked) :=
  ⟨rfl,
    (gates_one_way demoCat demoBlocked "Hydrodynamics" "initial" "x"
      (Value.scalar (.int 1)) false).2.2.2.2.2.2.2.2.2.2 rfl⟩

theorem versionsOK_sealState (h : History) (m : List (String × Value))
    (level : String) (entries : List (String × Value)) (hok : versionsOK h) :
    versionsOK (h.sealState m level entries) ∧
      h.states <+: (h.sealState m level entries).states := by
  obtain ⟨hpw, hlt⟩ := hok
  refine ⟨⟨?_, ?_⟩, List.prefix_append h.states [⟨m, level, h.counter⟩]⟩
  · simp only [History.sealState, List.map_append, List.map_cons, List.map_nil]
    rw [List.pairwise_append]
    refine ⟨hpw, List.pairwise_singleton _ _, ?_⟩
    intro a ha b hb
    rw [List.mem_singleton] at hb
    subst hb
    obtain ⟨st, hst, rfl⟩ := List.mem_map.mp ha
    exact hlt st hst
  · intro st hst
    simp only [History.sealState] at hst
    rw [List.mem_append] at hst
    simp only [History.sealState]
    rcases hst with hin | hlast
    · have := hlt st hin
      omega
    · rw [List.mem_singleton] at hlast
      subst hlast
      exact Nat.lt_succ_self h.counter

theorem execute_cases (cat : Catalogue) (c : Contract) (h : History) :
    (∃ e, Connector.execute cat c h = (h, some e)) ∨
    (∃ st outs, h.currentState = some st ∧
      Connector.execute cat c h =
        (h.sealState (setAll st.mapping outs) c.id outs, none)) := by
  cases hcs : h.currentState with
  | none =>
    exact Or.inl ⟨.notExecutable c.req, by simp only [Connector.execute, hcs]⟩
  | some st =>
    cases hcomp : c.compute (Connector.inputsFor c st) with
    | error cause =>
      exact Or.inl ⟨.executionError c.id cause,
        by simp only [Connector.execute, hcs, hcomp]⟩
    | ok outs =>
      by_cases hval : (outs.all fun p => cat.validate p.1 p.2) = true
      · exact Or.inr ⟨st, outs, rfl,
          by simp only [Connector.execute, hcs, hcomp, if_pos hval]⟩
      · exact Or.inl ⟨.outputValidationError c.id,
          by simp only [Connector.execute, hcs, hcomp, if_neg hval]⟩

theorem rewind_cases (cat : Catalogue) (h : History) (level : String)
    (preserve : Bool) :
    (∃ e, h.rewind cat level preserve = .error e) ∨
    (∃ v0, h.rewind cat level preserve = .ok { h with current := v0 }) ∨
    (∃ m entries, h.rewind cat level preserve =
      .ok (h.sealState m level entries)) := by
  cases hcp : alookup h.checkpoints level with
  | none =>
    exact Or.inl ⟨.unknownLevel level, by simp only [History.rewind, hcp]⟩
  | some v0 =>
    cases hbase : h.stateAt v0 with
    | none =>
      exact Or.inl ⟨.unknownLevel level,
        by simp only [History.rewind, hcp, hbase]⟩
    | some base =>
      cases preserve with
      | false =>
        exact Or.inr (Or.inl ⟨v0, by simp only [History.rewind, hcp, hbase,
          Bool.false_eq_true, if_false]⟩)
      | true =>
        refine Or.inr (Or.inr ⟨installAll cat base.mapping
          ((h.log.filter (fun e => decide (v0 < e.1))).map
            (fun e => (e.2.1, e.2.2))),
          (h.log.filter (fun e => decide (v0 < e.1))).map
            (fun e => (e.2.1, e.2.2)), ?_⟩)
        simp only [History.rewind, hcp, hbase, if_true]

/-- C9: within a project, sealed Data States carry strictly increasing (hence
unique) version integers; no operation mutates a sealed state — the prior
state list is always a prefix of the new one; and an information-adding
operation (a successful set_value) produces exactly one new version. -/
theorem versions_invariant (cat : Catalogue) (p : Project)
    (id name level : String) (v : Value) (preserve : Bool)
    (hok : versionsOK p.history) :
    (versionsOK (setValue cat p id v).1.history ∧
      p.history.states <+: (setValue cat p id v).1.history.states) ∧
    (versionsOK (executeCurrent cat p).1.history ∧
      p.history.states <+: (executeCurrent cat p).1.history.states) ∧
    (versionsOK (resetLevel cat p level preserve).1.history ∧
      p.history.states <+: (resetLevel cat p level preserve).1.history.states) ∧
    ((checkpointLevel p level).history.states = p.history.states) ∧
    ((activateModule p name).1.history = p.history) ∧
    ((setValue cat p id v).2 = none →
      (setValue cat p id v).1.history.versionCount =
        p.history.versionCount + 1) := by
  have hset : (versionsOK (setValue cat p id v).1.history ∧
      p.history.states <+: (setValue cat p id v).1.history.states) ∧
      ((setValue cat p id v).2 = none →
        (setValue cat p id v).1.history.versionCount =
          p.history.versionCount + 1) := by
    cases hst : p.history.currentState with
    | none =>
      refine ⟨⟨?_, ?_⟩, ?_⟩ <;> simp only [setValue, hst]
      · exact hok
      · exact List.prefix_rfl
      · intro hcon
        exact Option.noConfusion hcon
    | some st =>
      cases hmrg : mergeValue cat st id v with
      | error e =>
        refine ⟨⟨?_, ?_⟩, ?_⟩ <;> simp only [setValue, hst, hmrg]
        · exact hok
        · exact List.prefix_rfl
        · intro hcon
          exact Option.noConfusion hcon
      | ok st' =>
        have hseal := versionsOK_sealState p.history st'.mapping st.level
          [(id, v)] hok
        refine ⟨⟨?_, ?_⟩, ?_⟩ <;> simp only [setValue, hst, hmrg]
        · exact hseal.1
        · exact hseal.2
        · intro _
          simp [History.sealState, History.versionCount]
  have hexec : versionsOK (executeCurrent cat p).1.history ∧
      p.history.states <+: (executeCurrent cat p).1.history.states := by
    cases hcm : currentModule p with
    | none =>
      constructor <;> simp only [executeCurrent, hcm]
      · exact hok
      · exact List.prefix_rfl
    | some c =>
      cases hst : p.history.currentState with
      | none =>
        constructor <;> simp only [executeCurrent, hcm, hst]
        · exact hok
        · exact List.prefix_rfl
      | some st =>
        cases hstatus : Connector.status cat c st with
        | blocked ids =>
          constructor <;> simp only [executeCurrent, hcm, hst, hstatus]
          · exact hok
          · exact List.prefix_rfl
        | satisfied =>
          have hrun := execute_cases cat c p.history
          rcases hex : Connector.execute cat c p.history with ⟨h', err⟩
          rw [hex] at hrun
          have hgoal : versionsOK h' ∧ p.history.states <+: h'.states := by
            rcases hrun with ⟨e, heq⟩ | ⟨st2, outs, hst2, heq⟩
            · have : h' = p.history := congrArg Prod.fst heq
              rw [this]
              exact ⟨hok, List.prefix_rfl⟩
            · have : h' = p.history.sealState (setAll st2.mapping outs)
                  c.id outs := congrArg Prod.fst heq
              rw [this]
              exact versionsOK_sealState p.history _ _ _ hok
          cases err with
          | some e =>
            constructor <;> simp only [executeCurrent, hcm, hst, hstatus, hex]
            · exact hgoal.1
            · exact hgoal.2
          | none =>
            constructor <;> simp only [executeCurrent, hcm, hst, hstatus, hex]
            · exact hgoal.1
            · exact hgoal.2
  have hreset : versionsOK (resetLevel cat p level preserve).1.history ∧
      p.history.states <+:
        (resetLevel cat p level preserve).1.history.states := by
    have hrun := rewind_cases cat p.history level preserve
    cases hrw : p.history.rewind cat level preserve with
    | error e =>
      constructor <;> simp only [resetLevel, hrw]
      · exact hok
      · exact List.prefix_rfl
    | ok h' =>
      rw [hrw] at hrun
      have hgoal : versionsOK h' ∧ p.history.states <+: h'.states := by
        rcases hrun with ⟨e, heq⟩ | ⟨v0, heq⟩ | ⟨m, entries, heq⟩
        · exact Except.noConfusion heq
        · have : h' = { p.history with current := v0 } := by
            injection heq
          rw [this]
          exact ⟨hok, List.prefix_rfl⟩
        · have : h' = p.history.sealState m level entries := by
            injection heq
          rw [this]
          exact versionsOK_sealState p.history _ _ _ hok
      constructor <;> simp only [resetLevel, hrw]
      · exact hgoal.1
      · exact hgoal.2
  have hactivate : (activateModule p name).1.history = p.history := by
    by_cases hstage : p.stage = Stage.dataflowInitiated
    · simp [activateModule, hstage]
    · simp only [activateModule, if_neg hstage]
      cases hfind : List.find? (fun c => decide (c.id = name)) p.available with
      | none => simp [hfind]
      | some c => simp [hfind]
  exact ⟨hset.1, hexec, hreset, rfl, hactivate, hset.2⟩

/-- Witness for C9 on the demo project: the invariant holds initially and a
successful set_value preserves it, extends the state list and adds exactly
one version. -/
theorem versions_invariant_witness :
    versionsOK demoBlocked.history ∧
    (versionsOK (setValue demoCat demoBlocked "x"
        (Value.scalar (.int 1))).1.history ∧
      demoBlocked.history.states <+:
        (setValue demoCat demoBlocked "x"
          (Value.scalar (.int 1))).1.history.states) :=
  ⟨by decide,
    (versions_invariant demoCat demoBlocked "x" "Hydrodynamics" "initial"
      (Value.scalar (.int 1)) false (by decide)).1⟩

/-- C5: rewind(L, preserve=False) sets the current pointer to the
checkpointed version, so variables merged strictly after the checkpoint are
no longer visible (the current state is again the checkpointed one); with
preserve=True every variable merged strictly after that checkpoint is
re-applied on top of the rewound state as a new sealed state (last writer
wins), so those later merges remain visible; rewinding to an unknown level
fails with UnknownLevelError. -/
theorem rewind_semantics (cat : Catalogue) (h : History) (level : String) :
    (alookup h.checkpoints level = none →
      ∀ preserve, h.rewind cat level preserve = .error (.unknownLevel level)) ∧
    (∀ v0 base, alookup h.checkpoints level = some v0 →
      h.stateAt v0 = some base →
      (h.rewind cat level false = .ok { h with current := v0 } ∧
        ∀ id, ({ h with current := v0 } : History).currentValue id =
          alookup base.mapping id) ∧
      (∀ entries,
        entries = (h.log.filter (fun e => decide (v0 < e.1))).map
          (fun e => (e.2.1, e.2.2)) →
        (∀ e ∈ entries, cat.validate e.1 e.2 = true) →
        (∀ s ∈ h.states, s.version < h.counter) →
        ∃ h', h.rewind cat level true = .ok h' ∧
          h'.versionCount = h.versionCount + 1 ∧
          (∀ id v, findLast entries id = some v →
            h'.currentValue id = some v) ∧
          (∀ id, findLast entries id = none →
            h'.currentValue id = alookup base.mapping id))) := by
  constructor
  · intro hcp preserve
    simp only [History.rewind, hcp]
  · intro v0 base hcp hbase
    constructor
    · constructor
      · simp only [History.rewind, hcp, hbase, Bool.false_eq_true, if_false]
      · intro id
        have hcs : ({ h with current := v0 } : History).currentState =
            some base := hbase
        simp only [History.currentValue, hcs, Option.some_bind]
    · intro entries hent hval hvers
      have hrw : h.rewind cat level true =
          .ok (h.sealState (installAll cat base.mapping entries)
            level entries) := by
        rw [hent]
        simp only [History.rewind, hcp, hbase, if_true]
      have hm2 : installAll cat base.mapping entries =
          setAll base.mapping entries :=
        installAll_eq_setAll cat base.mapping entries hval
      have hcs : (h.sealState (installAll cat base.mapping entries)
            level entries).currentState =
          some ⟨installAll cat base.mapping entries, level, h.counter⟩ :=
        currentState_sealState h _ _ _ hvers
      refine ⟨_, hrw, ?_, ?_, ?_⟩
      · simp [History.sealState, History.versionCount]
      · intro id v hfl
        simp only [History.currentValue, hcs, Option.some_bind]
        rw [hm2]
        simp only [alookup_setAll, hfl]
      · intro id hfl
        simp only [History.currentValue, hcs, Option.some_bind]
        rw [hm2]
        simp only [alookup_setAll, hfl]

/-- Witness for C5: the Scenario E run — checkpoint "modules initial", three
further merges, rewind with preserve keeps all three visible on a new sealed
state. -/
theorem rewind_semantics_witness :
    alookup demoC5.history.checkpoints "modules initial" = some 1 ∧
    demoC5.history.stateAt 1 = some demoBase ∧
    (∃ h', demoC5.history.rewind demoCat "modules initial" true = .ok h' ∧
      h'.versionCount = demoC5.history.versionCount + 1 ∧
      (∀ id v, findLast demoLater id = some v →
        h'.currentValue id = some v) ∧
      (∀ id, findLast demoLater id = none →
        h'.currentValue id = alookup demoBase.mapping id)) :=
  ⟨by decide, by decide,
    ((rewind_semantics demoCat demoC5.history "modules initial").2 1 demoBase
      (by decide) (by decide)).2 demoLater (by decide) (by decide)
      (by decide)⟩

end DTOcean

